import Mathlib

/-!
Verification development for the chunked loan-dataset feature-engineering
pipeline (prepare_data.py).

The embedding models pandas data frames as ordered association lists of
named columns of cells.  A cell is either the missing marker (NaN), a
string, or an exact rational number: Python floats are idealized as exact
rationals, represented by the kernel-computable type Q below (numerator,
positive denominator, kept in lowest terms by the smart constructor).
-/

namespace LoanPrep

/-- Exact rational number used to model Python float values: an integer
numerator and a natural denominator.  All arithmetic goes through the
normalizing constructor, so values are canonical and decidable equality is
ordinary structural equality. -/
structure Q where
  num : Int
  den : Nat
  deriving DecidableEq

/-- Normalizing constructor: divide numerator and denominator by their gcd.
A zero denominator (which never arises from the pipeline's arithmetic) is
mapped to 0. -/
def Q.mk' (n : Int) (d : Nat) : Q :=
  if d = 0 then ⟨0, 1⟩
  else
    let g := Nat.gcd n.natAbs d
    ⟨if n < 0 then -((n.natAbs / g : Nat) : Int) else ((n.natAbs / g : Nat) : Int), d / g⟩

/-- Embedding of a natural number as a Q value. -/
def Q.ofNat (n : Nat) : Q := ⟨(n : Int), 1⟩

/-- Addition of exact rationals. -/
def Q.add (a b : Q) : Q := Q.mk' (a.num * (b.den : Int) + b.num * (a.den : Int)) (a.den * b.den)

/-- Multiplication of exact rationals. -/
def Q.mul (a b : Q) : Q := Q.mk' (a.num * b.num) (a.den * b.den)

/-- Reciprocal of an exact rational (reciprocal of zero is zero; the
pipeline only ever divides by the constant 2). -/
def Q.inv (b : Q) : Q :=
  if b.num = 0 then ⟨0, 1⟩
  else ⟨if 0 ≤ b.num then ((b.den : Int)) else -((b.den : Int)), b.num.natAbs⟩

/-- Division of exact rationals. -/
def Q.div (a b : Q) : Q := Q.mul a (Q.inv b)

/-- Boolean comparison of exact rationals by cross multiplication (the
denominator is nonnegative, so the order is preserved). -/
def Q.leB (a b : Q) : Bool := decide (a.num * (b.den : Int) ≤ b.num * (a.den : Int))

/-- Scalar cell of a raw or engineered data frame: the missing marker
(NaN), a text value, or a numeric value. -/
inductive Cell where
  | na : Cell
  | str : String → Cell
  | num : Q → Cell
  deriving DecidableEq

/-- Model of pandas.isna on one scalar. -/
def pd_isna (c : Cell) : Bool :=
  match c with
  | Cell.na => true
  | _ => false

/-- Rendering of a numeric value as text, modelling Python str() on a
float.  Only its behaviour on the missing marker and on text cells matters
to the pipeline; the numeric rendering is a schematic stand-in for float
repr (integral values get a trailing ".0" as in Python). -/
def qStr (q : Q) : String :=
  if q.den == 1 then toString q.num ++ ".0" else toString q.num ++ "/" ++ toString q.den

/-- Model of Python str() applied to one cell.  str(nan) is the literal
text "nan", which is also what pandas astype(str) produces for missing
values. -/
def pyStrCell (c : Cell) : String :=
  match c with
  | Cell.na => "nan"
  | Cell.str s => s
  | Cell.num q => qStr q

/-- Python whitespace test used by str.strip. -/
def pyWs (c : Char) : Bool :=
  c == ' ' || c == '\t' || c == '\n' || c == '\r' || c == '\x0b' || c == '\x0c'

/-- Model of Python str.strip(): remove leading and trailing whitespace. -/
def pyStrip (s : String) : String :=
  String.mk (((s.toList.dropWhile pyWs).reverse.dropWhile pyWs).reverse)

/-- Model of Python str.lower(). -/
def pyLower (s : String) : String := String.mk (s.toList.map Char.toLower)

/-- Model of Python str.replace("%", ""): remove every percent sign. -/
def stripPercent (s : String) : String :=
  String.mk (s.toList.filter (fun c => !(c == '%')))

/-- Numeric value of one decimal digit character. -/
def digitVal (c : Char) : Nat := c.toNat - '0'.toNat

/-- Natural number denoted by a list of decimal digit characters. -/
def natOfDigits (ds : List Char) : Nat := ds.foldl (fun a c => 10 * a + digitVal c) 0

/-- Split a character list at the first character satisfying p, returning
the parts before and after it, or none when no character satisfies p. -/
def splitOnFirst (p : Char → Bool) : List Char → Option (List Char × List Char)
  | [] => none
  | c :: rest =>
      if p c then some ([], rest)
      else (splitOnFirst p rest).map (fun pr => (c :: pr.1, pr.2))

/-- Optional sign at the front of a numeric literal. -/
def parseSign (cs : List Char) : Int × List Char :=
  match cs with
  | [] => (1, [])
  | c :: r => if c = '+' then (1, r) else if c = '-' then (-1, r) else (1, c :: r)

/-- Unsigned decimal mantissa: digits, optionally with one decimal point;
at least one digit overall.  Returns the integer formed by all digits and
the number of fractional digits. -/
def parseMantissa (cs : List Char) : Option (Nat × Nat) :=
  match splitOnFirst (fun c => c == '.') cs with
  | none => if cs ≠ [] && cs.all Char.isDigit then some (natOfDigits cs, 0) else none
  | some (ip, fp) =>
      if (ip ++ fp) ≠ [] && ip.all Char.isDigit && fp.all Char.isDigit then
        some (natOfDigits (ip ++ fp), fp.length)
      else none

/-- Scale a rational by a power of ten (the exponent part of a float
literal). -/
def scalePow10 (q : Q) (e : Int) : Q :=
  if 0 ≤ e then Q.mul q ⟨(10 ^ e.toNat : Nat), 1⟩ else Q.mul q (Q.mk' 1 (10 ^ (-e).toNat))

/-- Model of Python's float() builtin on the decimal-literal fragment:
an optional sign, digits with an optional decimal point, and an optional
exponent part.  Returns none exactly where float() raises ValueError.
The special spellings inf/infinity/nan, underscore separators, and
surrounding whitespace (every call site passes an already stripped string)
are outside the model. -/
def pyFloat (s : String) : Option Q :=
  let cs := s.toList
  match splitOnFirst (fun c => c == 'e' || c == 'E') cs with
  | none =>
      let sg := parseSign cs
      (parseMantissa sg.2).map (fun m => Q.mk' (sg.1 * (m.1 : Int)) (10 ^ m.2))
  | some (mant, ex) =>
      let sg := parseSign mant
      match parseMantissa sg.2 with
      | none => none
      | some m =>
          let eg := parseSign ex
          if eg.2 ≠ [] && eg.2.all Char.isDigit then
            some (scalePow10 (Q.mk' (sg.1 * (m.1 : Int)) (10 ^ m.2)) (eg.1 * (natOfDigits eg.2 : Int)))
          else none

deriving instance DecidableEq for Except

/-- Result of a field parser: either a numeric-or-missing value, or a
raised Python exception (error). -/
abbrev ParseResult := Except Unit (Option Q)

/-- Convert terms like "36 months" to the numeric month count: if the
input is missing return the missing marker, otherwise keep every digit
character of str(value) and cast the digit string to float (missing when
there are no digits). -/
def _parse_term (c : Cell) : ParseResult :=
  if pd_isna c then Except.ok none
  else
    let ds := (pyStrCell c).toList.filter Char.isDigit
    if ds.isEmpty then Except.ok none
    else
      match pyFloat (String.mk ds) with
      | some q => Except.ok (some q)
      | none => Except.error ()

/-- Normalize employment length strings to a numeric year count: strip and
lower-case str(value); the phrases "10+ years"/"10 years"/"10+" map to 10
and "< 1 year"/"<1 year"/"<1" map to 0; otherwise keep every digit
character and cast to float (missing when there are no digits). -/
def _parse_emp_length (c : Cell) : ParseResult :=
  if pd_isna c then Except.ok none
  else
    let value := pyLower (pyStrip (pyStrCell c))
    if ["10+ years", "10 years", "10+"].contains value then Except.ok (some (Q.ofNat 10))
    else if ["< 1 year", "<1 year", "<1"].contains value then Except.ok (some (Q.ofNat 0))
    else
      let ds := value.toList.filter Char.isDigit
      if ds.isEmpty then Except.ok none
      else
        match pyFloat (String.mk ds) with
        | some q => Except.ok (some q)
        | none => Except.error ()

/-- Strip percent signs and cast to float: if the input is missing return
the missing marker; remove every percent sign from str(value) and strip
whitespace; an empty cleaned string is missing, otherwise the cleaned
string is cast with float(), which raises on text it cannot parse. -/
def _parse_percentage (c : Cell) : ParseResult :=
  if pd_isna c then Except.ok none
  else
    let cleaned := pyStrip (stripPercent (pyStrCell c))
    if cleaned = "" then Except.ok none
    else
      match pyFloat cleaned with
      | some q => Except.ok (some q)
      | none => Except.error ()

/-- Column of a data frame: the ordered list of its cells, one per row. -/
abbrev Col := List Cell

/-- Data frame: an ordered association list of named columns.  Row i of
the frame is cell i of every column. -/
structure DF where
  cols : List (String × Col)
  deriving DecidableEq

/-- Column names of a frame, in order. -/
def DF.names (df : DF) : List String := df.cols.map Prod.fst

/-- Lookup of a column by name (first occurrence). -/
def lookupCol : List (String × Col) → String → Option Col
  | [], _ => none
  | p :: rest, c => if p.1 = c then some p.2 else lookupCol rest c

/-- Column of a frame by name. -/
def DF.get? (df : DF) (c : String) : Option Col := lookupCol df.cols c

/-- Membership test for a column name, modelling "c in df.columns". -/
def DF.hasCol (df : DF) (c : String) : Bool := df.names.contains c

/-- Row count of a frame, read off the first column (every frame built by
the pipeline has columns of equal length). -/
def DF.nrows (df : DF) : Nat :=
  match df.cols with
  | [] => 0
  | p :: _ => p.2.length

/-- Model of pandas DataFrame.empty: an axis of length zero. -/
def DF.isEmpty (df : DF) : Bool := df.cols.isEmpty || df.nrows == 0

/-- Well-formedness: all columns have the same length. -/
def DF.wf (df : DF) : Prop := ∀ p ∈ df.cols, p.2.length = df.nrows

/-- Column assignment on the underlying association list: replace the
first column of that name in place, or append a new column at the end. -/
def setAssoc : List (String × Col) → String → Col → List (String × Col)
  | [], c, v => [(c, v)]
  | p :: rest, c, v => if p.1 = c then (c, v) :: rest else p :: setAssoc rest c v

/-- Model of df[c] = v: replace the column in place or append it. -/
def DF.setCol (df : DF) (c : String) (v : Col) : DF := ⟨setAssoc df.cols c v⟩

/-- Keep the rows whose mask entry is true (boolean row filtering). -/
def maskFilter (mask : List Bool) (vs : Col) : Col :=
  ((mask.zip vs).filter Prod.fst).map Prod.snd

/-- Model of df[mask]: apply the row mask to every column. -/
def DF.filterRows (df : DF) (mask : List Bool) : DF :=
  ⟨df.cols.map (fun p => (p.1, maskFilter mask p.2))⟩

/-- Numeric coercion of one cell, modelling pd.to_numeric(-, coerce) on
one element: numbers pass through, parseable text becomes its number,
everything else becomes missing. -/
def toNumericCell (c : Cell) : Option Q :=
  match c with
  | Cell.na => none
  | Cell.num q => some q
  | Cell.str s => pyFloat (pyStrip s)

/-- Pack an optional number back into a cell (missing for none). -/
def optCell : Option Q → Cell
  | some q => Cell.num q
  | none => Cell.na

/-- Combine high/low ranges into a single representative score: with both
bound columns present, the elementwise mean of the two columns coerced to
numeric (missing propagates); with exactly one present, that column
coerced to numeric; with neither, an all-missing column. -/
def _build_fico_score (df : DF) : Col :=
  match df.get? "fico_range_low", df.get? "fico_range_high" with
  | some low, some high =>
      (low.zip high).map (fun p =>
        match toNumericCell p.1, toNumericCell p.2 with
        | some a, some b => Cell.num (Q.div (Q.add a b) ⟨2, 1⟩)
        | _, _ => Cell.na)
  | some low, none => low.map (fun c => optCell (toNumericCell c))
  | none, some high => high.map (fun c => optCell (toNumericCell c))
  | none, none => List.replicate df.nrows Cell.na

/-- Lowercase and strip column names for consistency. -/
def _normalize_columns (df : DF) : DF :=
  ⟨df.cols.map (fun p => (pyStrip (pyLower p.1), p.2))⟩

/-- Raw categorical feature columns of the dataset. -/
def RAW_CATEGORICAL_COLUMNS : List String :=
  ["term", "emp_length", "home_ownership", "purpose", "addr_state", "application_type"]

/-- Raw numeric feature columns of the dataset. -/
def RAW_NUMERIC_COLUMNS : List String :=
  ["loan_amnt", "int_rate", "annual_inc", "dti", "delinq_2yrs",
   "fico_range_high", "fico_range_low", "inq_last_6mths"]

/-- Name of the label column. -/
def TARGET_COLUMN : String := "loan_status"

/-- Candidate numeric feature columns: the raw numeric columns plus the
derived fields. -/
def NUMERIC_CANDIDATES : List String :=
  RAW_NUMERIC_COLUMNS ++ ["term_months", "emp_length_years", "fico_score"]

/-- Apply a field parser to every cell of a column; a raised exception in
any cell aborts (Python would propagate it out of Series.apply). -/
def applyParser (f : Cell → ParseResult) (vs : Col) : Option Col :=
  vs.mapM (fun c =>
    match f c with
    | Except.ok r => some (optCell r)
    | Except.error _ => none)

/-- Derive column dst from column src with a field parser when src is
present; frames without src are left unchanged. -/
def deriveColumn (w : DF) (src dst : String) (f : Cell → ParseResult) : Option DF :=
  match w.get? src with
  | some vs => (applyParser f vs).map (fun nv => w.setCol dst nv)
  | none => some w

/-- Derived-field phase of engineer_features: term_months, then
emp_length_years, then int_rate and dti re-parsed in place, then the
composite fico_score column (always assigned). -/
def deriveStage (w0 : DF) : Option DF := do
  let w1 ← deriveColumn w0 "term" "term_months" _parse_term
  let w2 ← deriveColumn w1 "emp_length" "emp_length_years" _parse_emp_length
  let w3 ← deriveColumn w2 "int_rate" "int_rate" _parse_percentage
  let w4 ← deriveColumn w3 "dti" "dti" _parse_percentage
  pure (w4.setCol "fico_score" (_build_fico_score w4))

/-- Label encoding of one cell: astype(str), strip, lower, then the map
accepted to 1 and rejected to 0; anything else becomes missing. -/
def labelMapCell (c : Cell) : Cell :=
  let v := pyLower (pyStrip (pyStrCell c))
  if v = "accepted" then Cell.num ⟨1, 1⟩
  else if v = "rejected" then Cell.num ⟨0, 1⟩
  else Cell.na

/-- Validity test on a mapped label cell, modelling isin([0, 1]). -/
def isinZeroOne (c : Cell) : Bool :=
  match c with
  | Cell.num q => decide (q = ⟨0, 1⟩) || decide (q = ⟨1, 1⟩)
  | _ => false

/-- Target-encoding phase: when the label column is present, map it and
keep only the rows whose mapped label is 0 or 1. -/
def labelStage (w : DF) : DF :=
  match w.get? TARGET_COLUMN with
  | some vs =>
      let mapped := vs.map labelMapCell
      let w2 := w.setCol TARGET_COLUMN mapped
      w2.filterRows (mapped.map isinZeroOne)
  | none => w

/-- Apply a column transformation to every column of the list that is
present in the frame (the shape shared by the selection, imputation and
normalization loops). -/
def mapCols (L : List String) (f : Col → Col) (w : DF) : DF :=
  L.foldl (fun acc c =>
    match acc.get? c with
    | some vs => acc.setCol c (f vs)
    | none => acc) w

/-- Selected numeric feature columns: the candidates present in the
frame, in candidate order. -/
def numeric_features (w : DF) : List String :=
  NUMERIC_CANDIDATES.filter (fun c => w.hasCol c)

/-- Selected categorical feature columns: the raw categorical columns
present in the frame, in list order. -/
def categorical_features (w : DF) : List String :=
  RAW_CATEGORICAL_COLUMNS.filter (fun c => w.hasCol c)

/-- Numeric-selection phase: coerce every selected numeric column with
pd.to_numeric(-, coerce). -/
def coerceNumeric (w : DF) : DF :=
  mapCols NUMERIC_CANDIDATES (fun vs => vs.map (fun c => optCell (toNumericCell c))) w

/-- Categorical-selection phase: stringify, strip and lower-case every
selected categorical column. -/
def normalizeCategorical (w : DF) : DF :=
  mapCols RAW_CATEGORICAL_COLUMNS
    (fun vs => vs.map (fun c => Cell.str (pyLower (pyStrip (pyStrCell c))))) w

/-- Insert a rational into a sorted list (ascending). -/
def qInsert (x : Q) : List Q → List Q
  | [] => [x]
  | y :: ys => if Q.leB x y then x :: y :: ys else y :: qInsert x ys

/-- Sort a list of rationals ascending (insertion sort; the model of the
sort underlying the pandas median). -/
def qSort (xs : List Q) : List Q := xs.foldr qInsert []

/-- Numeric values of a column: the non-missing entries of a numeric
column. -/
def colNums (vs : Col) : List Q :=
  vs.filterMap (fun c =>
    match c with
    | Cell.num q => some q
    | _ => none)

/-- Model of pandas Series.median over the non-missing values: missing for
an empty list; the middle element of the sorted values for odd length; the
mean of the two middle elements for even length. -/
def pandasMedian (xs : List Q) : Option Q :=
  let s := qSort xs
  let n := s.length
  if n = 0 then none
  else if n % 2 = 1 then s.get? (n / 2)
  else
    match s.get? (n / 2 - 1), s.get? (n / 2) with
    | some a, some b => some (Q.div (Q.add a b) ⟨2, 1⟩)
    | _, _ => none

/-- Numeric imputation of one column: fillna with the column's own
median; when the column has no numeric values the median is itself
missing and fillna changes nothing. -/
def fillNumericCol (vs : Col) : Col :=
  match pandasMedian (colNums vs) with
  | some m => vs.map (fun c => if c = Cell.na then Cell.num m else c)
  | none => vs

/-- Lexicographic code-point comparison of character lists (the order
pandas uses when sorting string values). -/
def charLe : List Char → List Char → Bool
  | [], _ => true
  | _ :: _, [] => false
  | a :: as, b :: bs => if a == b then charLe as bs else decide (a.val < b.val)

/-- Insert a string into a sorted list (ascending code-point order). -/
def strInsert (x : String) : List String → List String
  | [] => [x]
  | y :: ys => if charLe x.toList y.toList then x :: y :: ys else y :: strInsert x ys

/-- Sort a list of strings ascending (insertion sort). -/
def strSort (xs : List String) : List String := xs.foldr strInsert []

/-- Text values of a column: the non-missing entries of a stringified
column. -/
def strVals (vs : Col) : List String :=
  vs.filterMap (fun c =>
    match c with
    | Cell.str s => some s
    | _ => none)

/-- Distinct values of a list, in ascending order (the model of pandas
unique-and-sort). -/
def uniqueSorted (xs : List String) : List String := strSort xs.dedup

/-- Largest multiplicity attained by any value of the list. -/
def maxCount (xs : List String) : Nat :=
  (xs.dedup.map (fun v => xs.count v)).foldr Nat.max 0

/-- Model of pandas Series.mode(dropna=True) on string values: the values
of largest multiplicity, sorted ascending. -/
def pandasModeStr (xs : List String) : List String :=
  (uniqueSorted xs).filter (fun v => xs.count v = maxCount xs)

/-- Categorical fill value: the first mode, or the literal "unknown" when
the column has no non-missing values at all. -/
def catFillValue (xs : List String) : String :=
  match pandasModeStr xs with
  | [] => "unknown"
  | m :: _ => m

/-- Replacement of the literal text "nan" (produced by stringification of
missing values) by the genuine missing marker. -/
def replaceNanCell (c : Cell) : Cell :=
  match c with
  | Cell.str s => if s = "nan" then Cell.na else c
  | _ => c

/-- Categorical imputation of one column: replace literal "nan" text by
missing, then fillna with the column's most frequent value (or the
fallback "unknown"). -/
def fillCategoricalCol (vs : Col) : Col :=
  let ws := vs.map replaceNanCell
  let fv := catFillValue (strVals ws)
  ws.map (fun c => if c = Cell.na then Cell.str fv else c)

/-- Imputation phase: numeric columns first, then categorical columns,
each filled from its own per-batch statistics. -/
def imputeStage (w : DF) : DF :=
  let w1 := mapCols (numeric_features w) fillNumericCol w
  mapCols (categorical_features w1) fillCategoricalCol w1

/-- One-hot indicator columns of one categorical column: one binary
column per distinct observed value (no category dropped), named by
combining the source column name and the value, in ascending value
order. -/
def dummyColumns (colName : String) (vs : Col) : List (String × Col) :=
  (uniqueSorted (strVals vs)).map (fun v =>
    (colName ++ "_" ++ v,
     vs.map (fun c => if c = Cell.str v then Cell.num ⟨1, 1⟩ else Cell.num ⟨0, 1⟩)))

/-- Model of pd.get_dummies over the selected categorical columns: the
indicator columns of each categorical column, grouped in selection
order. -/
def encodeStage (w : DF) : List (String × Col) :=
  (categorical_features w).foldr (fun c acc =>
    (match w.get? c with
     | some vs => dummyColumns c vs
     | none => []) ++ acc) []

/-- Conversion of a 0/1 label cell with astype(int) (integer part;
only ever applied to cells that are exactly 0 or 1). -/
def castIntCell (c : Cell) : Cell :=
  match c with
  | Cell.num q => Cell.num ⟨(q.num.natAbs / q.den : Nat) * (if q.num < 0 then -1 else 1), 1⟩
  | x => x

/-- Assembly phase: the imputed numeric columns followed by the one-hot
columns, plus the integer-cast label column when a label was present. -/
def assembleStage (w : DF) : DF :=
  let numPart : List (String × Col) :=
    (numeric_features w).map (fun c => (c, (w.get? c).getD []))
  let base : DF := ⟨numPart ++ encodeStage w⟩
  match w.get? TARGET_COLUMN with
  | some vs => base.setCol TARGET_COLUMN (vs.map castIntCell)
  | none => base

/-- Working frame of engineer_features just before imputation: column
names normalized, derived fields added, label encoded and filtered,
numeric columns coerced, categorical columns stringified.  none when a
field parser raised. -/
def engineerWorking (df : DF) : Option DF :=
  (deriveStage (_normalize_columns df)).map (fun w =>
    normalizeCategorical (coerceNumeric (labelStage w)))

/-- Return a cleaned, model-ready frame for a given chunk: normalize,
derive, encode the label, select and coerce features, impute, one-hot
encode, assemble.  none when a field parser raised (the Python exception
propagates). -/
def engineer_features (df : DF) : Option DF :=
  (engineerWorking df).map (fun w => assembleStage (imputeStage w))

/-- Row of the output sink: a header row carrying column names, or a data
row carrying the cells of one record in column order. -/
inductive FileRow where
  | header : List String → FileRow
  | data : List Cell → FileRow
  deriving DecidableEq

/-- Header test on a sink row. -/
def isHeaderRow : FileRow → Bool
  | FileRow.header _ => true
  | FileRow.data _ => false

/-- Rows of a frame, in order: row i is cell i of every column. -/
def DF.rowsList (df : DF) : List (List Cell) :=
  (List.range df.nrows).map (fun i => df.cols.map (fun p => p.2.getD i Cell.na))

/-- Model of DataFrame.to_csv: an optional header row followed by the
data rows. -/
def to_csv (df : DF) (withHeader : Bool) : List FileRow :=
  (if withHeader then [FileRow.header df.names] else []) ++ df.rowsList.map FileRow.data

/-- Align a frame's columns to the canonical schema, modelling
df.reindex(columns=schema, fill_value=0): exactly the schema columns in
schema order, values taken from the frame when the column exists and an
all-zero column otherwise. -/
def reindexColumns (df : DF) (schema : List String) : DF :=
  ⟨schema.map (fun c =>
    (c, match df.get? c with
        | some vs => vs
        | none => List.replicate df.nrows (Cell.num ⟨0, 1⟩)))⟩

/-- Engineer the sample and read off the canonical column order. -/
def engineer_sample_and_get_schema (sample : DF) : Option (DF × List String) :=
  (engineer_features sample).map (fun e => (e, e.names))

/-- State of the chunked run: the rows written to the output sink so far
and the running total of data rows. -/
structure RunState where
  file : List FileRow
  total : Nat
  deriving DecidableEq

/-- One chunk of the driver loop: engineer the chunk; skip it entirely
when the result is empty; otherwise align it to the schema and append it
to the sink without a header, counting its rows. -/
def driveStep (schema : List String) (st : RunState) (chunk : DF) : Option RunState := do
  let eng ← engineer_features chunk
  if eng.isEmpty then pure st
  else
    let aligned := reindexColumns eng schema
    pure ⟨st.file ++ to_csv aligned false, st.total + eng.nrows⟩

/-- Engineer the entire dataset: engineer the sample and fix the schema,
write the engineered sample with a header as the first segment, then fold
the driver step over the remaining chunks.  none when any batch raises. -/
def process_full_dataset_chunked (sample : DF) (chunks : List DF) : Option RunState := do
  let pr ← engineer_sample_and_get_schema sample
  let init : RunState := ⟨to_csv pr.1 true, pr.1.nrows⟩
  chunks.foldlM (driveStep pr.2) init

/-! Basic lemmas about frames and column assignment. -/

theorem lookupCol_setAssoc_self (l : List (String × Col)) (c : String) (v : Col) :
    lookupCol (setAssoc l c v) c = some v := by
  induction l with
  | nil => simp [setAssoc, lookupCol]
  | cons p rest ih =>
      by_cases h : p.1 = c
      · simp [setAssoc, lookupCol, h]
      · simp [setAssoc, lookupCol, h, ih]

theorem lookupCol_setAssoc_ne (l : List (String × Col)) (c c' : String) (v : Col)
    (h : c' ≠ c) : lookupCol (setAssoc l c v) c' = lookupCol l c' := by
  have hcc : ¬c = c' := fun hh => h hh.symm
  induction l with
  | nil => simp [setAssoc, lookupCol, hcc]
  | cons p rest ih =>
      by_cases hp : p.1 = c
      · have hpc : ¬p.1 = c' := by rw [hp]; exact hcc
        simp [setAssoc, lookupCol, hp, hcc, hpc]
      · by_cases hp' : p.1 = c'
        · simp [setAssoc, lookupCol, hp, hp', h]
        · simp [setAssoc, lookupCol, hp, hp', ih]

theorem DF.get?_setCol_self (df : DF) (c : String) (v : Col) :
    (df.setCol c v).get? c = some v :=
  lookupCol_setAssoc_self df.cols c v

theorem DF.get?_setCol_ne (df : DF) (c c' : String) (v : Col) (h : c' ≠ c) :
    (df.setCol c v).get? c' = df.get? c' :=
  lookupCol_setAssoc_ne df.cols c c' v h

theorem lookupCol_eq_none_of_not_mem (l : List (String × Col)) (c : String)
    (h : c ∉ l.map Prod.fst) : lookupCol l c = none := by
  induction l with
  | nil => simp [lookupCol]
  | cons p rest ih =>
      simp only [List.map_cons, List.mem_cons] at h
      push_neg at h
      have hp : ¬p.1 = c := fun hh => h.1 hh.symm
      simp [lookupCol, hp, ih h.2]

theorem lookupCol_isSome_of_mem (l : List (String × Col)) (c : String)
    (h : c ∈ l.map Prod.fst) : (lookupCol l c).isSome := by
  induction l with
  | nil => simp at h
  | cons p rest ih =>
      by_cases hp : p.1 = c
      · simp [lookupCol, hp]
      · simp only [List.map_cons, List.mem_cons] at h
        rcases h with h | h
        · exact absurd h.symm hp
        · simp [lookupCol, hp, ih h]

theorem DF.hasCol_iff_get?_isSome (df : DF) (c : String) :
    df.hasCol c = true ↔ (df.get? c).isSome := by
  constructor
  · intro h
    exact lookupCol_isSome_of_mem df.cols c (by simpa [DF.hasCol, DF.names] using h)
  · intro h
    by_contra hc
    have : c ∉ df.cols.map Prod.fst := by
      simpa [DF.hasCol, DF.names] using hc
    rw [DF.get?, lookupCol_eq_none_of_not_mem df.cols c this] at h
    simp at h

theorem List.get?_zip_of_get? {α β : Type} (as : List α) (bs : List β) (i : Nat)
    (a : α) (b : β) (ha : as.get? i = some a) (hb : bs.get? i = some b) :
    (as.zip bs).get? i = some (a, b) := by
  induction as generalizing bs i with
  | nil => simp at ha
  | cons x xs ih =>
      cases bs with
      | nil => simp at hb
      | cons y ys =>
          cases i with
          | zero =>
              simp only [List.get?] at ha hb
              injection ha with ha
              injection hb with hb
              subst ha
              subst hb
              simp [List.zip_cons_cons, List.get?]
          | succ n =>
              simp only [List.get?] at ha hb
              simpa [List.zip_cons_cons, List.get?] using ih ys n ha hb

/-! Mapped-column lemmas used by the selection, normalization and
imputation folds. -/

theorem mapCols_cons (a : String) (rest : List String) (f : Col → Col) (w : DF) :
    mapCols (a :: rest) f w =
      mapCols rest f
        (match w.get? a with
         | some vs => w.setCol a (f vs)
         | none => w) := rfl

theorem mapCols_get?_not_mem (L : List String) (f : Col → Col) (w : DF) (c : String)
    (h : c ∉ L) : (mapCols L f w).get? c = w.get? c := by
  induction L generalizing w with
  | nil => rfl
  | cons a rest ih =>
      simp only [List.mem_cons] at h
      push_neg at h
      rw [mapCols_cons, ih _ h.2]
      cases hv : w.get? a with
      | none => simp [hv]
      | some vs => simp [hv, DF.get?_setCol_ne _ _ _ _ h.1]

theorem mapCols_get?_mem (L : List String) (f : Col → Col) (w : DF) (c : String)
    (hnd : L.Nodup) (hmem : c ∈ L) :
    (mapCols L f w).get? c = (w.get? c).map f := by
  induction L generalizing w with
  | nil => simp at hmem
  | cons a rest ih =>
      rw [List.nodup_cons] at hnd
      rw [mapCols_cons]
      rcases List.mem_cons.mp hmem with h | h
      · subst h
        rw [mapCols_get?_not_mem rest f _ c hnd.1]
        cases hv : w.get? c with
        | none => simp [hv]
        | some vs => simp [hv, DF.get?_setCol_self]
      · have hca : c ≠ a := fun hh => hnd.1 (hh ▸ h)
        rw [ih _ hnd.2 h]
        cases hv : w.get? a with
        | none => simp [hv]
        | some vs => simp [hv, DF.get?_setCol_ne _ _ _ _ hca]

/-- C6: the composite score builder, given the two optional bound columns,
returns the elementwise arithmetic mean of the independently coerced bounds
when both columns are present (a bound that fails to coerce is missing and
makes that row's score missing), returns the single present column coerced
to numeric when only one bound column exists, and returns an all-missing
column when neither exists. -/
theorem claim_C6 (df : DF) :
    (∀ low high i cl ch a b,
        df.get? "fico_range_low" = some low →
        df.get? "fico_range_high" = some high →
        low.get? i = some cl → high.get? i = some ch →
        toNumericCell cl = some a → toNumericCell ch = some b →
        (_build_fico_score df).get? i = some (Cell.num (Q.div (Q.add a b) ⟨2, 1⟩)))
    ∧ (∀ low high i cl ch,
        df.get? "fico_range_low" = some low →
        df.get? "fico_range_high" = some high →
        low.get? i = some cl → high.get? i = some ch →
        (toNumericCell cl = none ∨ toNumericCell ch = none) →
        (_build_fico_score df).get? i = some Cell.na)
    ∧ (∀ low,
        df.get? "fico_range_low" = some low →
        df.get? "fico_range_high" = none →
        _build_fico_score df = low.map (fun c => optCell (toNumericCell c)))
    ∧ (∀ high,
        df.get? "fico_range_low" = none →
        df.get? "fico_range_high" = some high →
        _build_fico_score df = high.map (fun c => optCell (toNumericCell c)))
    ∧ (df.get? "fico_range_low" = none →
        df.get? "fico_range_high" = none →
        _build_fico_score df = List.replicate df.nrows Cell.na) := by
  refine ⟨?_, ?_, ?_, ?_, ?_⟩
  · intro low high i cl ch a b hlow hhigh hl hh ha hb
    rw [_build_fico_score, hlow, hhigh]
    rw [List.get?_map, List.get?_zip_of_get? low high i cl ch hl hh]
    simp [ha, hb]
  · intro low high i cl ch hlow hhigh hl hh hcase
    rw [_build_fico_score, hlow, hhigh]
    rw [List.get?_map, List.get?_zip_of_get? low high i cl ch hl hh]
    rcases hcase with h | h
    · simp [h]
    · cases hc : toNumericCell cl <;> simp [h, hc]
  · intro low hlow hhigh
    rw [_build_fico_score, hlow, hhigh]
  · intro high hlow hhigh
    rw [_build_fico_score, hlow, hhigh]
  · intro hlow hhigh
    rw [_build_fico_score, hlow, hhigh]

/-- Witness for C6: low 700 and high 720 give 710; a missing high bound in
a present high column gives a missing score; only a low column with 700
gives 700; neither column gives an all-missing column. -/
theorem claim_C6_witness :
    (_build_fico_score ⟨[("fico_range_low", [Cell.num ⟨700, 1⟩]),
                         ("fico_range_high", [Cell.num ⟨720, 1⟩])]⟩).get? 0 =
        some (Cell.num ⟨710, 1⟩) ∧
    (_build_fico_score ⟨[("fico_range_low", [Cell.num ⟨700, 1⟩]),
                         ("fico_range_high", [Cell.na])]⟩).get? 0 = some Cell.na ∧
    _build_fico_score ⟨[("fico_range_low", [Cell.num ⟨700, 1⟩])]⟩ =
        [Cell.num ⟨700, 1⟩] ∧
    _build_fico_score ⟨[("purpose", [Cell.str "car"])]⟩ = [Cell.na] := by
  refine ⟨?_, ?_, ?_, ?_⟩
  · have h := (claim_C6 ⟨[("fico_range_low", [Cell.num ⟨700, 1⟩]),
        ("fico_range_high", [Cell.num ⟨720, 1⟩])]⟩).1
      [Cell.num ⟨700, 1⟩] [Cell.num ⟨720, 1⟩] 0 (Cell.num ⟨700, 1⟩) (Cell.num ⟨720, 1⟩)
      ⟨700, 1⟩ ⟨720, 1⟩ rfl rfl rfl rfl rfl rfl
    exact h.trans (by decide)
  · exact (claim_C6 _).2.1 [Cell.num ⟨700, 1⟩] [Cell.na] 0 (Cell.num ⟨700, 1⟩) Cell.na
      rfl rfl rfl rfl (Or.inr rfl)
  · have h := (claim_C6 ⟨[("fico_range_low", [Cell.num ⟨700, 1⟩])]⟩).2.2.1
      [Cell.num ⟨700, 1⟩] rfl rfl
    exact h.trans (by decide)
  · have h := (claim_C6 ⟨[("purpose", [Cell.str "car"])]⟩).2.2.2.2 rfl rfl
    exact h.trans (by decide)

/-- C9: a chunk whose engineered result is empty is skipped by the driver
step: the run state (sink rows and running total) is returned unchanged, no
error is raised, and the fold continues with the remaining chunks from the
same state. -/
theorem claim_C9 (schema : List String) (st : RunState) (chunk eng : DF)
    (h1 : engineer_features chunk = some eng) (h2 : eng.isEmpty = true) :
    driveStep schema st chunk = some st ∧
    ∀ rest : List DF,
      List.foldlM (driveStep schema) st (chunk :: rest) =
        List.foldlM (driveStep schema) st rest := by
  have hstep : driveStep schema st chunk = some st := by
    simp [driveStep, h1, h2]
  exact ⟨hstep, fun rest => by simp [List.foldlM, hstep]⟩

/-- Witness for C9: a one-row chunk whose only label is "pending" loses
its row to the label filter and is skipped without changing the state. -/
theorem claim_C9_witness :
    driveStep ["fico_score"] ⟨[], 0⟩ ⟨[("loan_status", [Cell.str "pending"])]⟩ =
        some ⟨[], 0⟩ ∧
    List.foldlM (driveStep ["fico_score"]) ⟨[], 0⟩
        [DF.mk [("loan_status", [Cell.str "pending"])]] =
      List.foldlM (driveStep ["fico_score"]) (⟨[], 0⟩ : RunState) [] := by
  have h := claim_C9 ["fico_score"] ⟨[], 0⟩ ⟨[("loan_status", [Cell.str "pending"])]⟩
    ⟨[("fico_score", []), ("loan_status", [])]⟩ (by decide) (by decide)
  exact ⟨h.1, h.2 []⟩

/-! Behaviour of the float model on pure digit strings. -/

theorem splitOnFirst_eq_none (p : Char → Bool) (cs : List Char)
    (h : ∀ c ∈ cs, p c = false) : splitOnFirst p cs = none := by
  induction cs with
  | nil => rfl
  | cons c rest ih =>
      have hc := h c (List.mem_cons_self c rest)
      simp [splitOnFirst, hc, ih (fun x hx => h x (List.mem_cons_of_mem c hx))]

theorem isDigit_not_special (c : Char) (h : c.isDigit = true) :
    (c == 'e' || c == 'E') = false ∧ (c == '.') = false ∧ c ≠ '+' ∧ c ≠ '-' := by
  refine ⟨?_, ?_, ?_, ?_⟩
  · cases he : (c == 'e' || c == 'E')
    · rfl
    · exfalso
      rcases Bool.or_eq_true_iff.mp he with hh | hh
      · rw [beq_iff_eq] at hh; subst hh; exact absurd h (by decide)
      · rw [beq_iff_eq] at hh; subst hh; exact absurd h (by decide)
  · cases he : (c == '.')
    · rfl
    · exfalso; rw [beq_iff_eq] at he; subst he; exact absurd h (by decide)
  · intro hh; subst hh; exact absurd h (by decide)
  · intro hh; subst hh; exact absurd h (by decide)

theorem Q.mk'_int_one (n : Int) : Q.mk' n 1 = ⟨n, 1⟩ := by
  rw [Q.mk']
  simp only [Nat.gcd_one_right, Nat.div_one, if_neg (by omega : ¬(1 : Nat) = 0)]
  by_cases hn : n < 0
  · simp only [if_pos hn]
    refine congrArg (fun m => Q.mk m 1) ?_
    omega
  · simp only [if_neg hn]
    refine congrArg (fun m => Q.mk m 1) ?_
    omega

theorem parseSign_of_digit (c : Char) (r : List Char) (h : c.isDigit = true) :
    parseSign (c :: r) = (1, c :: r) := by
  obtain ⟨-, -, h3, h4⟩ := isDigit_not_special c h
  simp [parseSign, h3, h4]

theorem parseMantissa_all_digits (ds : List Char) (h1 : ds ≠ [])
    (h2 : ∀ c ∈ ds, c.isDigit = true) :
    parseMantissa ds = some (natOfDigits ds, 0) := by
  have hdot : splitOnFirst (fun c => c == '.') ds = none :=
    splitOnFirst_eq_none _ ds (fun c hc => (isDigit_not_special c (h2 c hc)).2.1)
  rw [parseMantissa, hdot]
  simp [h1, List.all_eq_true.mpr h2]

theorem pyFloat_all_digits (ds : List Char) (h1 : ds ≠ [])
    (h2 : ∀ c ∈ ds, c.isDigit = true) :
    pyFloat (String.mk ds) = some ⟨(natOfDigits ds : Int), 1⟩ := by
  have htl : (String.mk ds).toList = ds := rfl
  have hexp : splitOnFirst (fun c => c == 'e' || c == 'E') ds = none :=
    splitOnFirst_eq_none _ ds (fun c hc => (isDigit_not_special c (h2 c hc)).1)
  obtain ⟨d, rest, rfl⟩ : ∃ d rest, ds = d :: rest := by
    cases ds with
    | nil => exact absurd rfl h1
    | cons d rest => exact ⟨d, rest, rfl⟩
  have hsign := parseSign_of_digit d rest (h2 d (List.mem_cons_self d rest))
  rw [pyFloat]
  simp only [htl, hexp, hsign, parseMantissa_all_digits _ h1 h2, Option.map_some']
  simp [Q.mk'_int_one]

/-! Full characterizations of the term and employment-length parsers. -/

theorem parse_term_notna (c : Cell) (h : pd_isna c = false) :
    _parse_term c =
      Except.ok
        (if (pyStrCell c).toList.filter Char.isDigit = [] then none
         else some ⟨(natOfDigits ((pyStrCell c).toList.filter Char.isDigit) : Int), 1⟩) := by
  rw [_parse_term, h]
  simp only [Bool.false_eq_true, if_false]
  by_cases hds : (pyStrCell c).toList.filter Char.isDigit = []
  · have hie : ((pyStrCell c).toList.filter Char.isDigit).isEmpty = true := by rw [hds]; rfl
    rw [if_pos hds, if_pos hie]
  · have hie : ((pyStrCell c).toList.filter Char.isDigit).isEmpty = false := by
      cases hf : (pyStrCell c).toList.filter Char.isDigit with
      | nil => exact absurd hf hds
      | cons a l => rfl
    rw [if_neg hds, hie]
    simp only [Bool.false_eq_true, if_false]
    rw [pyFloat_all_digits _ hds (fun c hc => List.of_mem_filter hc)]

theorem parse_emp_length_notna (c : Cell) (h : pd_isna c = false) :
    _parse_emp_length c =
      (if ["10+ years", "10 years", "10+"].contains (pyLower (pyStrip (pyStrCell c))) then
         Except.ok (some ⟨10, 1⟩)
       else if ["< 1 year", "<1 year", "<1"].contains (pyLower (pyStrip (pyStrCell c))) then
         Except.ok (some ⟨0, 1⟩)
       else Except.ok
        (if (pyLower (pyStrip (pyStrCell c))).toList.filter Char.isDigit = [] then none
         else some ⟨(natOfDigits ((pyLower (pyStrip (pyStrCell c))).toList.filter Char.isDigit) : Int), 1⟩)) := by
  rw [_parse_emp_length, h]
  simp only [Bool.false_eq_true, if_false]
  by_cases h10 : ["10+ years", "10 years", "10+"].contains (pyLower (pyStrip (pyStrCell c))) = true
  · rw [if_pos h10, if_pos h10]
    rfl
  · rw [if_neg h10, if_neg h10]
    by_cases h0 : ["< 1 year", "<1 year", "<1"].contains (pyLower (pyStrip (pyStrCell c))) = true
    · rw [if_pos h0, if_pos h0]
      rfl
    · rw [if_neg h0, if_neg h0]
      by_cases hds : (pyLower (pyStrip (pyStrCell c))).toList.filter Char.isDigit = []
      · have hie : ((pyLower (pyStrip (pyStrCell c))).toList.filter Char.isDigit).isEmpty = true := by
          rw [hds]; rfl
        rw [if_pos hds, if_pos hie]
      · have hie : ((pyLower (pyStrip (pyStrCell c))).toList.filter Char.isDigit).isEmpty = false := by
          cases hf : (pyLower (pyStrip (pyStrCell c))).toList.filter Char.isDigit with
          | nil => exact absurd hf hds
          | cons a l => rfl
        rw [if_neg hds, hie]
        simp only [Bool.false_eq_true, if_false]
        rw [pyFloat_all_digits _ hds (fun c hc => List.of_mem_filter hc)]

theorem eq_na_of_isna (c : Cell) (h : pd_isna c = true) : c = Cell.na := by
  cases c with
  | na => rfl
  | str s => exact absurd h (by simp [pd_isna])
  | num q => exact absurd h (by simp [pd_isna])

/-- Modelled from the spec: the leading digit run of a string, that is the
first maximal block of consecutive digit characters (used only to compare
the spec's description of the term parser with the code). -/
def leadingDigitRun (s : String) : String :=
  String.mk ((s.toList.dropWhile (fun c => !c.isDigit)).takeWhile Char.isDigit)

/-- Accumulator pass collecting maximal digit runs. -/
def digitRunsAux : List Char → List Char → List String
  | [], cur => if cur.isEmpty then [] else [String.mk cur.reverse]
  | c :: rest, cur =>
      if c.isDigit then digitRunsAux rest (c :: cur)
      else if cur.isEmpty then digitRunsAux rest []
      else String.mk cur.reverse :: digitRunsAux rest []

/-- Modelled from the spec: the maximal runs of consecutive digit
characters of a string, in order (used only to compare the spec's
description of the employment-length parser with the code). -/
def digitRuns (s : String) : List String := digitRunsAux s.toList []

/-- Counterexample for C3: the percentage parser raises a Python
ValueError on malformed text such as "abc" (float("abc")), instead of
resolving it to the missing marker. -/
theorem claim_C3_counterexample :
    _parse_percentage (Cell.str "abc") = Except.error () := by decide

/-- C3 (amended): the term parser and the employment-length parser return
a numeric value or the missing marker for every input and never raise; the
percentage parser returns the missing marker for missing input and for
input whose cleaned text is empty, and the parsed number for decimal
numeric text, but raises an exception for non-empty cleaned text that is
not a numeric literal. -/
theorem claim_C3 :
    (∀ c : Cell, ∃ r : Option Q, _parse_term c = Except.ok r)
    ∧ (∀ c : Cell, ∃ r : Option Q, _parse_emp_length c = Except.ok r)
    ∧ (∀ c : Cell, pd_isna c = true → _parse_percentage c = Except.ok none)
    ∧ (∀ c : Cell, pyStrip (stripPercent (pyStrCell c)) = "" →
        _parse_percentage c = Except.ok none)
    ∧ (∀ (c : Cell) (q : Q), pd_isna c = false →
        pyFloat (pyStrip (stripPercent (pyStrCell c))) = some q →
        pyStrip (stripPercent (pyStrCell c)) ≠ "" →
        _parse_percentage c = Except.ok (some q))
    ∧ (∀ c : Cell, pd_isna c = false →
        pyFloat (pyStrip (stripPercent (pyStrCell c))) = none →
        pyStrip (stripPercent (pyStrCell c)) ≠ "" →
        _parse_percentage c = Except.error ()) := by
  refine ⟨?_, ?_, ?_, ?_, ?_, ?_⟩
  · intro c
    cases hna : pd_isna c with
    | true =>
        rw [eq_na_of_isna c hna]
        exact ⟨none, rfl⟩
    | false =>
        rw [parse_term_notna c hna]
        by_cases hds : (pyStrCell c).toList.filter Char.isDigit = []
        · exact ⟨none, by rw [if_pos hds]⟩
        · exact ⟨_, by rw [if_neg hds]⟩
  · intro c
    cases hna : pd_isna c with
    | true =>
        rw [eq_na_of_isna c hna]
        exact ⟨none, rfl⟩
    | false =>
        rw [parse_emp_length_notna c hna]
        by_cases h10 : ["10+ years", "10 years", "10+"].contains (pyLower (pyStrip (pyStrCell c))) = true
        · exact ⟨_, by rw [if_pos h10]⟩
        · rw [if_neg h10]
          by_cases h0 : ["< 1 year", "<1 year", "<1"].contains (pyLower (pyStrip (pyStrCell c))) = true
          · exact ⟨_, by rw [if_pos h0]⟩
          · rw [if_neg h0]
            by_cases hds : (pyLower (pyStrip (pyStrCell c))).toList.filter Char.isDigit = []
            · exact ⟨none, by rw [if_pos hds]⟩
            · exact ⟨_, by rw [if_neg hds]⟩
  · intro c h
    rw [eq_na_of_isna c h]
    rfl
  · intro c h
    cases hna : pd_isna c with
    | true =>
        rw [eq_na_of_isna c hna]
        rfl
    | false =>
        rw [_parse_percentage, hna]
        simp only [Bool.false_eq_true, if_false]
        rw [if_pos h]
  · intro c q hna hfl hne
    rw [_parse_percentage, hna]
    simp only [Bool.false_eq_true, if_false]
    rw [if_neg hne, hfl]
  · intro c hna hfl hne
    rw [_parse_percentage, hna]
    simp only [Bool.false_eq_true, if_false]
    rw [if_neg hne, hfl]

/-- Witness for C3: the term and employment-length parsers return a value
on thoroughly malformed text; the percentage parser resolves missing input
and a bare percent sign to missing, and parses " 13.56% " to 13.56. -/
theorem claim_C3_witness :
    (∃ r : Option Q, _parse_term (Cell.str "##garbage##") = Except.ok r) ∧
    (∃ r : Option Q, _parse_emp_length (Cell.str "##garbage##") = Except.ok r) ∧
    _parse_percentage Cell.na = Except.ok none ∧
    _parse_percentage (Cell.str " % ") = Except.ok none ∧
    _parse_percentage (Cell.str " 13.56% ") = Except.ok (some ⟨339, 25⟩) := by
  obtain ⟨h1, h2, h3, h4, h5, h6⟩ := claim_C3
  exact ⟨h1 (Cell.str "##garbage##"), h2 (Cell.str "##garbage##"),
         h3 Cell.na rfl, h4 (Cell.str " % ") (by decide),
         h5 (Cell.str " 13.56% ") ⟨339, 25⟩ rfl (by decide) (by decide)⟩

/-- Counterexample for C4: on "3 years 6" the term parser returns 36, the
number formed by concatenating all digit characters, not 3, the number
formed by the leading digit run as the claim states. -/
theorem claim_C4_counterexample :
    _parse_term (Cell.str "3 years 6") = Except.ok (some ⟨36, 1⟩) ∧
    leadingDigitRun "3 years 6" = "3" ∧
    natOfDigits (leadingDigitRun "3 years 6").toList = 3 ∧
    (⟨36, 1⟩ : Q) ≠ ⟨3, 1⟩ := by decide

/-- C4 (amended): the term parser concatenates all digit characters of the
input string in order and returns the resulting number ("36 months" gives
36, "60 Months" gives 60), and returns the missing marker when the input
is missing or contains no digit at all. -/
theorem claim_C4 (s : String) :
    _parse_term Cell.na = Except.ok none ∧
    _parse_term (Cell.str s) =
      Except.ok
        (if s.toList.filter Char.isDigit = [] then none
         else some ⟨(natOfDigits (s.toList.filter Char.isDigit) : Int), 1⟩) ∧
    _parse_term (Cell.str "36 months") = Except.ok (some ⟨36, 1⟩) ∧
    _parse_term (Cell.str "60 Months") = Except.ok (some ⟨60, 1⟩) := by
  refine ⟨rfl, ?_, by decide, by decide⟩
  exact parse_term_notna (Cell.str s) rfl

/-- Counterexample for C5: on "1 year 2 months" the employment-length
parser returns 12, which is not the number of any digit run of the input
(the runs are "1" and "2"), so the parser does not extract a digit run. -/
theorem claim_C5_counterexample :
    _parse_emp_length (Cell.str "1 year 2 months") = Except.ok (some ⟨12, 1⟩) ∧
    digitRuns "1 year 2 months" = ["1", "2"] ∧
    ¬((⟨12, 1⟩ : Q) ∈
        (["1", "2"].map (fun r => (⟨(natOfDigits r.toList : Int), 1⟩ : Q)))) := by decide

/-- C5 (amended): after whitespace-trimming and lower-casing, the
employment-length parser maps "10+ years", "10 years" and "10+" to 10 and
the "< 1 year" variants to 0; otherwise it concatenates all digit
characters of the normalized string in order and returns the resulting
number ("5 years" gives 5), and it returns the missing marker when the
input is missing or contains no digit at all. -/
theorem claim_C5 (s : String) :
    _parse_emp_length Cell.na = Except.ok none ∧
    _parse_emp_length (Cell.str s) =
      (if ["10+ years", "10 years", "10+"].contains (pyLower (pyStrip s)) then
         Except.ok (some ⟨10, 1⟩)
       else if ["< 1 year", "<1 year", "<1"].contains (pyLower (pyStrip s)) then
         Except.ok (some ⟨0, 1⟩)
       else Except.ok
        (if (pyLower (pyStrip s)).toList.filter Char.isDigit = [] then none
         else some ⟨(natOfDigits ((pyLower (pyStrip s)).toList.filter Char.isDigit) : Int), 1⟩)) ∧
    _parse_emp_length (Cell.str " 10+ Years ") = Except.ok (some ⟨10, 1⟩) ∧
    _parse_emp_length (Cell.str "< 1 year") = Except.ok (some ⟨0, 1⟩) ∧
    _parse_emp_length (Cell.str "5 years") = Except.ok (some ⟨5, 1⟩) := by
  refine ⟨rfl, ?_, by decide, by decide, by decide⟩
  exact parse_emp_length_notna (Cell.str s) rfl

/-! Label filtering. -/

theorem lookupCol_mapped (l : List (String × Col)) (g : Col → Col) (c : String) :
    lookupCol (l.map (fun p => (p.1, g p.2))) c = (lookupCol l c).map g := by
  induction l with
  | nil => rfl
  | cons p rest ih =>
      by_cases hp : p.1 = c
      · simp [lookupCol, hp]
      · simp [lookupCol, hp, ih]

theorem DF.get?_filterRows (df : DF) (mask : List Bool) (c : String) :
    (df.filterRows mask).get? c = (df.get? c).map (maskFilter mask) :=
  lookupCol_mapped df.cols (maskFilter mask) c

/-- Label handling of one cell as a partial map: the mapped 0/1 value of
a recognized label, none for every other label. -/
def keepLabelCell (c : Cell) : Option Cell :=
  if pyLower (pyStrip (pyStrCell c)) = "accepted" then some (Cell.num ⟨1, 1⟩)
  else if pyLower (pyStrip (pyStrCell c)) = "rejected" then some (Cell.num ⟨0, 1⟩)
  else none

theorem labelMapCell_eq (c : Cell) :
    labelMapCell c =
      (if pyLower (pyStrip (pyStrCell c)) = "accepted" then Cell.num ⟨1, 1⟩
       else if pyLower (pyStrip (pyStrCell c)) = "rejected" then Cell.num ⟨0, 1⟩
       else Cell.na) := rfl

theorem keepLabelCell_eq (c : Cell) :
    keepLabelCell c =
      (if pyLower (pyStrip (pyStrCell c)) = "accepted" then some (Cell.num ⟨1, 1⟩)
       else if pyLower (pyStrip (pyStrCell c)) = "rejected" then some (Cell.num ⟨0, 1⟩)
       else none) := rfl

theorem label_col_filter (vs : Col) :
    maskFilter ((vs.map labelMapCell).map isinZeroOne) (vs.map labelMapCell) =
      vs.filterMap keepLabelCell := by
  induction vs with
  | nil => rfl
  | cons c rest ih =>
      simp only [List.map_cons, List.filterMap_cons, labelMapCell_eq c, keepLabelCell_eq c]
      by_cases ha : pyLower (pyStrip (pyStrCell c)) = "accepted"
      · rw [if_pos ha, if_pos ha]
        simpa [isinZeroOne, maskFilter] using ih
      · rw [if_neg ha, if_neg ha]
        by_cases hr : pyLower (pyStrip (pyStrCell c)) = "rejected"
        · rw [if_pos hr, if_pos hr]
          simpa [isinZeroOne, maskFilter] using ih
        · rw [if_neg hr, if_neg hr]
          simpa [isinZeroOne, maskFilter] using ih

theorem castIntCell_one : castIntCell (Cell.num ⟨1, 1⟩) = Cell.num ⟨1, 1⟩ := by decide

theorem castIntCell_zero : castIntCell (Cell.num ⟨0, 1⟩) = Cell.num ⟨0, 1⟩ := by decide

theorem castInt_keepLabel (vs : Col) :
    (vs.filterMap keepLabelCell).map castIntCell = vs.filterMap keepLabelCell := by
  induction vs with
  | nil => rfl
  | cons c rest ih =>
      simp only [List.filterMap_cons, keepLabelCell_eq c]
      by_cases ha : pyLower (pyStrip (pyStrCell c)) = "accepted"
      · rw [if_pos ha]
        simp [castIntCell_one, ih]
      · rw [if_neg ha]
        by_cases hr : pyLower (pyStrip (pyStrCell c)) = "rejected"
        · rw [if_pos hr]
          simp [castIntCell_zero, ih]
        · rw [if_neg hr]
          exact ih

theorem labelStage_get?_target (w : DF) (vs : Col) (hv : w.get? TARGET_COLUMN = some vs) :
    (labelStage w).get? TARGET_COLUMN = some (vs.filterMap keepLabelCell) := by
  rw [labelStage, hv]
  rw [DF.get?_filterRows, DF.get?_setCol_self]
  simp only [Option.map_some']
  rw [label_col_filter]

theorem not_target_numeric : TARGET_COLUMN ∉ NUMERIC_CANDIDATES := by decide

theorem not_target_categorical : TARGET_COLUMN ∉ RAW_CATEGORICAL_COLUMNS := by decide

theorem mem_cat_features (w : DF) (c : String) (h : c ∈ categorical_features w) :
    c ∈ RAW_CATEGORICAL_COLUMNS := List.mem_of_mem_filter h

theorem mem_num_features (w : DF) (c : String) (h : c ∈ numeric_features w) :
    c ∈ NUMERIC_CANDIDATES := List.mem_of_mem_filter h

theorem post_label_get?_target (L : DF) (tv : Col) (h : L.get? TARGET_COLUMN = some tv) :
    (imputeStage (normalizeCategorical (coerceNumeric L))).get? TARGET_COLUMN = some tv := by
  have h1 : (coerceNumeric L).get? TARGET_COLUMN = some tv := by
    rw [coerceNumeric, mapCols_get?_not_mem _ _ _ _ not_target_numeric, h]
  have h2 : (normalizeCategorical (coerceNumeric L)).get? TARGET_COLUMN = some tv := by
    rw [normalizeCategorical, mapCols_get?_not_mem _ _ _ _ not_target_categorical, h1]
  rw [imputeStage]
  rw [mapCols_get?_not_mem (categorical_features _) fillCategoricalCol _ TARGET_COLUMN
      (fun hm => not_target_categorical (mem_cat_features _ _ hm))]
  rw [mapCols_get?_not_mem (numeric_features _) fillNumericCol _ TARGET_COLUMN
      (fun hm => not_target_numeric (mem_num_features _ _ hm))]
  exact h2

theorem assembleStage_get?_target (w : DF) (tv : Col)
    (h : w.get? TARGET_COLUMN = some tv) :
    (assembleStage w).get? TARGET_COLUMN = some (tv.map castIntCell) := by
  simp only [assembleStage, h]
  exact DF.get?_setCol_self _ _ _

/-- C7: with the label column present in the derived working frame, the
feature engineer maps each label whose trimmed lower-cased text is
"accepted" to 1 and "rejected" to 0, drops every row whose normalized
label is anything else from every column of the batch, and applies this
filter before feature selection, imputation and encoding: the final
output is exactly the post-label pipeline applied to the filtered frame,
and its label column holds exactly the 0/1 codes of the surviving rows. -/
theorem claim_C7 (df w out : DF) (vs : Col)
    (hw : deriveStage (_normalize_columns df) = some w)
    (hv : w.get? TARGET_COLUMN = some vs)
    (hout : engineer_features df = some out) :
    out = assembleStage (imputeStage (normalizeCategorical (coerceNumeric (labelStage w)))) ∧
    (labelStage w).get? TARGET_COLUMN = some (vs.filterMap keepLabelCell) ∧
    out.get? TARGET_COLUMN = some (vs.filterMap keepLabelCell) ∧
    (∀ c cvs, c ≠ TARGET_COLUMN → w.get? c = some cvs →
        (labelStage w).get? c =
          some (maskFilter ((vs.map labelMapCell).map isinZeroOne) cvs)) := by
  have hshape : out =
      assembleStage (imputeStage (normalizeCategorical (coerceNumeric (labelStage w)))) := by
    rw [engineer_features, engineerWorking, hw] at hout
    simp only [Option.map_some'] at hout
    exact (Option.some.inj hout).symm
  have htgt := labelStage_get?_target w vs hv
  refine ⟨hshape, htgt, ?_, ?_⟩
  · have hpost := post_label_get?_target (labelStage w) _ htgt
    rw [hshape, assembleStage_get?_target _ _ hpost, castInt_keepLabel]
  · intro c cvs hc hget
    rw [labelStage, hv]
    rw [DF.get?_filterRows, DF.get?_setCol_ne _ _ _ _ hc, hget]
    rfl

/-- Witness inputs for C7: a five-row batch whose labels are "Accepted",
"ACCEPTED ", "rejected", "pending" and missing. -/
def c7df : DF :=
  ⟨[("Loan_Status", [Cell.str "Accepted", Cell.str "ACCEPTED ", Cell.str "rejected",
                     Cell.str "pending", Cell.na]),
    ("purpose", [Cell.str "a", Cell.str "b", Cell.str "c", Cell.str "d", Cell.str "e"])]⟩

/-- Witness for C7: on the concrete batch, the engineered label column is
exactly [1, 1, 0] (the "pending" and missing rows are gone) and the
purpose column keeps exactly the surviving rows. -/
theorem claim_C7_witness :
    ((engineer_features c7df).getD ⟨[]⟩).get? TARGET_COLUMN =
      some [Cell.num ⟨1, 1⟩, Cell.num ⟨1, 1⟩, Cell.num ⟨0, 1⟩] ∧
    (labelStage ((deriveStage (_normalize_columns c7df)).getD ⟨[]⟩)).get? "purpose" =
      some [Cell.str "a", Cell.str "b", Cell.str "c"] := by
  have h := claim_C7 c7df ((deriveStage (_normalize_columns c7df)).getD ⟨[]⟩)
    ((engineer_features c7df).getD ⟨[]⟩)
    [Cell.str "Accepted", Cell.str "ACCEPTED ", Cell.str "rejected",
     Cell.str "pending", Cell.na]
    (by decide) (by decide) (by decide)
  constructor
  · exact h.2.2.1.trans (by decide)
  · have h4 := h.2.2.2 "purpose"
      [Cell.str "a", Cell.str "b", Cell.str "c", Cell.str "d", Cell.str "e"]
      (by decide) (by decide)
    exact h4.trans (by decide)

/-! Imputation statistics. -/

theorem qInsert_length (x : Q) (l : List Q) : (qInsert x l).length = l.length + 1 := by
  induction l with
  | nil => rfl
  | cons y ys ih =>
      rw [qInsert]
      by_cases h : Q.leB x y = true
      · rw [if_pos h]; rfl
      · rw [if_neg h]
        simp [ih]

theorem qSort_length (xs : List Q) : (qSort xs).length = xs.length := by
  induction xs with
  | nil => rfl
  | cons x l ih => rw [qSort, List.foldr_cons, qInsert_length]; simpa [qSort] using ih

theorem pandasMedian_isSome (xs : List Q) (hne : xs ≠ []) :
    ∃ m, pandasMedian xs = some m := by
  have hlen : 0 < (qSort xs).length := by
    rw [qSort_length]; exact List.length_pos.mpr hne
  simp only [pandasMedian]
  rw [if_neg (by omega)]
  by_cases hodd : (qSort xs).length % 2 = 1
  · rw [if_pos hodd]
    cases hg : (qSort xs).get? ((qSort xs).length / 2) with
    | none =>
        rw [List.get?_eq_none] at hg
        have hlt : (qSort xs).length / 2 < (qSort xs).length :=
          Nat.div_lt_self hlen (by omega)
        omega
    | some m => exact ⟨m, rfl⟩
  · rw [if_neg hodd]
    have hlt : (qSort xs).length / 2 < (qSort xs).length := Nat.div_lt_self hlen (by omega)
    cases hg1 : (qSort xs).get? ((qSort xs).length / 2 - 1) with
    | none =>
        rw [List.get?_eq_none] at hg1
        omega
    | some a =>
        cases hg2 : (qSort xs).get? ((qSort xs).length / 2) with
        | none =>
            rw [List.get?_eq_none] at hg2
            omega
        | some b => exact ⟨Q.div (Q.add a b) ⟨2, 1⟩, rfl⟩

theorem strInsert_mem (x y : String) (l : List String) :
    y ∈ strInsert x l ↔ y = x ∨ y ∈ l := by
  induction l with
  | nil => simp [strInsert]
  | cons z zs ih =>
      rw [strInsert]
      by_cases h : charLe x.toList z.toList = true
      · rw [if_pos h]
        simp
      · rw [if_neg h]
        rw [List.mem_cons, ih, List.mem_cons]
        tauto

theorem strSort_mem (y : String) (l : List String) : y ∈ strSort l ↔ y ∈ l := by
  induction l with
  | nil => simp [strSort]
  | cons z zs ih =>
      rw [strSort, List.foldr_cons, strInsert_mem]
      rw [show List.foldr strInsert [] zs = strSort zs from rfl, ih, List.mem_cons]

theorem foldr_max_ge (l : List Nat) (x : Nat) (hx : x ∈ l) : x ≤ l.foldr Nat.max 0 := by
  induction l with
  | nil => cases hx
  | cons a rest ih =>
      rw [List.foldr_cons]
      rcases List.mem_cons.mp hx with h | h
      · subst h; exact Nat.le_max_left _ _
      · exact Nat.le_trans (ih h) (Nat.le_max_right _ _)

theorem foldr_max_mem (l : List Nat) :
    l.foldr Nat.max 0 ∈ l ∨ l.foldr Nat.max 0 = 0 := by
  induction l with
  | nil => exact Or.inr rfl
  | cons a rest ih =>
      rw [List.foldr_cons]
      show a ⊔ rest.foldr Nat.max 0 ∈ a :: rest ∨ a ⊔ rest.foldr Nat.max 0 = 0
      rw [Nat.max_def]
      by_cases h : a ≤ rest.foldr Nat.max 0
      · rw [if_pos h]
        rcases ih with hm | hz
        · exact Or.inl (List.mem_cons_of_mem a hm)
        · exact Or.inr hz
      · rw [if_neg h]
        exact Or.inl (List.mem_cons_self a rest)

theorem count_le_maxCount (xs : List String) (v : String) (hv : v ∈ xs) :
    xs.count v ≤ maxCount xs := by
  exact foldr_max_ge _ _ (List.mem_map_of_mem _ (List.mem_dedup.mpr hv))

theorem maxCount_attained (xs : List String) (hne : xs ≠ []) :
    ∃ v ∈ xs.dedup, xs.count v = maxCount xs := by
  rcases foldr_max_mem (xs.dedup.map (fun v => xs.count v)) with hmem | hzero
  · obtain ⟨v, hv, hcount⟩ := List.mem_map.mp hmem
    exact ⟨v, hv, hcount⟩
  · exfalso
    have hd : xs.dedup ≠ [] := fun h0 => hne ((List.dedup_eq_nil xs).mp h0)
    obtain ⟨v, hv⟩ := List.exists_mem_of_ne_nil xs.dedup hd
    have h1 : 0 < xs.count v := List.count_pos_iff.mpr (List.mem_dedup.mp hv)
    have h2 : xs.count v ≤ maxCount xs := foldr_max_ge _ _ (List.mem_map_of_mem _ hv)
    have h3 : maxCount xs = 0 := hzero
    omega

theorem catFillValue_spec (xs : List String) (hne : xs ≠ []) :
    catFillValue xs ∈ xs ∧ ∀ v, xs.count v ≤ xs.count (catFillValue xs) := by
  obtain ⟨v, hv, hc⟩ := maxCount_attained xs hne
  have hvs : v ∈ uniqueSorted xs := (strSort_mem v xs.dedup).mpr hv
  have hfil : v ∈ pandasModeStr xs :=
    List.mem_filter.mpr ⟨hvs, by simpa using hc⟩
  cases hm : pandasModeStr xs with
  | nil => rw [hm] at hfil; cases hfil
  | cons m ms =>
      have hmm : m ∈ pandasModeStr xs := by rw [hm]; exact List.mem_cons_self m ms
      obtain ⟨hmu, hmc⟩ := List.mem_filter.mp hmm
      have hcm : xs.count m = maxCount xs := by simpa using hmc
      have hmx : m ∈ xs := List.mem_dedup.mp ((strSort_mem m xs.dedup).mp hmu)
      have hcf : catFillValue xs = m := by rw [catFillValue, hm]
      rw [hcf]
      refine ⟨hmx, fun v' => ?_⟩
      by_cases hv' : v' ∈ xs
      · rw [hcm]
        exact count_le_maxCount xs v' hv'
      · rw [List.count_eq_zero.mpr hv']
        exact Nat.zero_le _

theorem numeric_cat_disjoint (c : String) (h1 : c ∈ NUMERIC_CANDIDATES)
    (h2 : c ∈ RAW_CATEGORICAL_COLUMNS) : False := by
  fin_cases h1 <;> simp_all [RAW_CATEGORICAL_COLUMNS]

theorem imputeStage_get?_numeric (w : DF) (c : String) (vs : Col)
    (hc : c ∈ numeric_features w) (hv : w.get? c = some vs) :
    (imputeStage w).get? c = some (fillNumericCol vs) := by
  rw [imputeStage]
  have hcat : c ∉ categorical_features (mapCols (numeric_features w) fillNumericCol w) :=
    fun hm => numeric_cat_disjoint c (mem_num_features _ _ hc) (mem_cat_features _ _ hm)
  rw [mapCols_get?_not_mem _ _ _ _ hcat]
  have hnd : (numeric_features w).Nodup := List.Nodup.filter _ (by decide)
  rw [mapCols_get?_mem _ _ _ _ hnd hc, hv]
  rfl

theorem imputeStage_get?_categorical (w : DF) (c : String) (vs : Col)
    (hc : c ∈ categorical_features w) (hv : w.get? c = some vs) :
    (imputeStage w).get? c = some (fillCategoricalCol vs) := by
  have hcraw := mem_cat_features _ _ hc
  have hnum : c ∉ numeric_features w :=
    fun hm => numeric_cat_disjoint c (mem_num_features _ _ hm) hcraw
  rw [imputeStage]
  have hv1 : (mapCols (numeric_features w) fillNumericCol w).get? c = some vs := by
    rw [mapCols_get?_not_mem _ _ _ _ hnum]
    exact hv
  have hc1 : c ∈ categorical_features (mapCols (numeric_features w) fillNumericCol w) := by
    rw [categorical_features]
    refine List.mem_filter.mpr ⟨hcraw, ?_⟩
    exact (DF.hasCol_iff_get?_isSome _ _).mpr (by rw [hv1]; rfl)
  have hnd : (categorical_features (mapCols (numeric_features w) fillNumericCol w)).Nodup :=
    List.Nodup.filter _ (by decide)
  rw [mapCols_get?_mem _ _ _ _ hnd hc1, hv1]
  rfl

/-- C8: the imputation phase replaces each selected numeric column's
missing values with that column's own median over the batch's non-missing
values (a column with no such values is left unchanged, the median of a
non-empty value list always exists), and replaces each selected
categorical column's missing values, including the literal "nan" text, by
that column's most frequent value, a value of largest multiplicity
occurring in the column, falling back to the literal "unknown" when the
column has no non-missing value at all. -/
theorem claim_C8 (w : DF) :
    (∀ c vs, c ∈ numeric_features w → w.get? c = some vs →
        (imputeStage w).get? c = some (fillNumericCol vs))
    ∧ (∀ c vs, c ∈ categorical_features w → w.get? c = some vs →
        (imputeStage w).get? c = some (fillCategoricalCol vs))
    ∧ (∀ (vs : Col) (m : Q), pandasMedian (colNums vs) = some m →
        fillNumericCol vs = vs.map (fun x => if x = Cell.na then Cell.num m else x))
    ∧ (∀ vs : Col, pandasMedian (colNums vs) = none → fillNumericCol vs = vs)
    ∧ (∀ xs : List Q, xs ≠ [] → ∃ m, pandasMedian xs = some m)
    ∧ (∀ vs : Col,
        fillCategoricalCol vs =
          (vs.map replaceNanCell).map
            (fun x => if x = Cell.na then
                Cell.str (catFillValue (strVals (vs.map replaceNanCell))) else x))
    ∧ (∀ xs : List String, xs ≠ [] →
        catFillValue xs ∈ xs ∧ ∀ v, xs.count v ≤ xs.count (catFillValue xs))
    ∧ catFillValue [] = "unknown" := by
  refine ⟨imputeStage_get?_numeric w, imputeStage_get?_categorical w,
    ?_, ?_, pandasMedian_isSome, fun vs => rfl, catFillValue_spec, rfl⟩
  · intro vs m h
    rw [fillNumericCol, h]
  · intro vs h
    rw [fillNumericCol, h]

/-- Witness inputs for C8: a three-row working frame with one numeric
column with a hole and one categorical column with a hole. -/
def c8w : DF :=
  ⟨[("loan_amnt", [Cell.num ⟨100, 1⟩, Cell.na, Cell.num ⟨300, 1⟩]),
    ("purpose", [Cell.str "car", Cell.na, Cell.str "car"])]⟩

/-- Witness for C8: the numeric hole is filled with the batch median 200
and the categorical hole with the batch mode "car". -/
theorem claim_C8_witness :
    (imputeStage c8w).get? "loan_amnt" =
      some [Cell.num ⟨100, 1⟩, Cell.num ⟨200, 1⟩, Cell.num ⟨300, 1⟩] ∧
    (imputeStage c8w).get? "purpose" =
      some [Cell.str "car", Cell.str "car", Cell.str "car"] := by
  obtain ⟨h1, h2, -, -, -, -, -, -⟩ := claim_C8 c8w
  constructor
  · exact (h1 "loan_amnt" [Cell.num ⟨100, 1⟩, Cell.na, Cell.num ⟨300, 1⟩]
      (by decide) (by decide)).trans (by decide)
  · exact (h2 "purpose" [Cell.str "car", Cell.na, Cell.str "car"]
      (by decide) (by decide)).trans (by decide)

/-! Propagation of an all-missing composite score column. -/

theorem get?_eq_none_of_not_hasCol (df : DF) (c : String) (h : df.hasCol c = false) :
    df.get? c = none := by
  cases hg : df.get? c with
  | none => rfl
  | some v =>
      have hs : df.hasCol c = true :=
        (DF.hasCol_iff_get?_isSome df c).mpr (by rw [hg]; rfl)
      rw [hs] at h
      cases h

theorem deriveColumn_get?_ne (w w' : DF) (src dst : String) (f : Cell → ParseResult)
    (c : String) (h : deriveColumn w src dst f = some w') (hc : c ≠ dst) :
    w'.get? c = w.get? c := by
  rw [deriveColumn] at h
  cases hv : w.get? src with
  | none =>
      rw [hv] at h
      have h2 : some w = some w' := h
      injection h2 with h2
      rw [← h2]
  | some vs =>
      rw [hv] at h
      have h2 : Option.map (fun nv => w.setCol dst nv) (applyParser f vs) = some w' := h
      cases ha : applyParser f vs with
      | none => rw [ha] at h2; cases h2
      | some nv =>
          rw [ha] at h2
          injection h2 with h2
          rw [← h2, DF.get?_setCol_ne _ _ _ _ hc]

theorem deriveStage_decompose (w0 w' : DF) (h : deriveStage w0 = some w') :
    ∃ w4 : DF, w' = w4.setCol "fico_score" (_build_fico_score w4) ∧
      ∀ c, c ≠ "term_months" → c ≠ "emp_length_years" → c ≠ "int_rate" → c ≠ "dti" →
        w4.get? c = w0.get? c := by
  rw [deriveStage] at h
  simp only [bind, pure, Option.bind_eq_some, Option.some.injEq] at h
  obtain ⟨w1, h1, w2, h2, w3, h3, w4, h4, h5⟩ := h
  refine ⟨w4, h5.symm, fun c hc1 hc2 hc3 hc4 => ?_⟩
  rw [deriveColumn_get?_ne _ _ _ _ _ c h4 hc4,
      deriveColumn_get?_ne _ _ _ _ _ c h3 hc3,
      deriveColumn_get?_ne _ _ _ _ _ c h2 hc2,
      deriveColumn_get?_ne _ _ _ _ _ c h1 hc1]

theorem maskFilter_mem (mask : List Bool) (vs : Col) (x : Cell)
    (hx : x ∈ maskFilter mask vs) : x ∈ vs := by
  rw [maskFilter] at hx
  obtain ⟨p, hp, hpx⟩ := List.mem_map.mp hx
  have hz := List.mem_filter.mp hp
  have := List.mem_zip hz.1
  rw [← hpx]
  exact this.2

theorem labelStage_get?_ne (w : DF) (c : String) (hc : c ≠ TARGET_COLUMN) :
    (labelStage w).get? c = w.get? c ∨
    ∃ mask, (labelStage w).get? c = (w.get? c).map (maskFilter mask) := by
  rw [labelStage]
  cases hv : w.get? TARGET_COLUMN with
  | none => exact Or.inl rfl
  | some vs =>
      refine Or.inr ⟨(vs.map labelMapCell).map isinZeroOne, ?_⟩
      rw [DF.get?_filterRows, DF.get?_setCol_ne _ _ _ _ hc]

theorem colNums_nil_of_all_na (vs : Col) (h : ∀ x ∈ vs, x = Cell.na) :
    colNums vs = [] := by
  rw [colNums]
  refine List.filterMap_eq_nil.mpr (fun a ha => ?_)
  rw [h a ha]

theorem lookupCol_keyed_map (L : List String) (g : String → Col) (c : String) (hc : c ∈ L) :
    lookupCol (L.map (fun n => (n, g n))) c = some (g c) := by
  induction L with
  | nil => cases hc
  | cons a rest ih =>
      by_cases ha : a = c
      · subst ha
        simp [lookupCol]
      · rcases List.mem_cons.mp hc with h | h
        · exact absurd h.symm ha
        · simp [lookupCol, ha, ih h]

theorem lookupCol_append_some (l1 l2 : List (String × Col)) (c : String) (v : Col)
    (h : lookupCol l1 c = some v) : lookupCol (l1 ++ l2) c = some v := by
  induction l1 with
  | nil => cases h
  | cons p rest ih =>
      rw [lookupCol] at h
      by_cases hp : p.1 = c
      · rw [if_pos hp] at h
        simp [lookupCol, hp, h]
      · rw [if_neg hp] at h
        simp [lookupCol, hp, ih h]

theorem assembleStage_get?_numeric (w : DF) (c : String) (vs : Col)
    (hc : c ∈ numeric_features w) (hv : w.get? c = some vs) (hct : c ≠ TARGET_COLUMN) :
    (assembleStage w).get? c = some vs := by
  have hbase :
      lookupCol ((numeric_features w).map (fun n => (n, (w.get? n).getD [])) ++ encodeStage w)
        c = some vs := by
    apply lookupCol_append_some
    rw [lookupCol_keyed_map _ _ _ hc, hv]
    rfl
  cases ht : w.get? TARGET_COLUMN with
  | none =>
      simp only [assembleStage, ht]
      exact hbase
  | some tv =>
      simp only [assembleStage, ht]
      rw [DF.get?_setCol_ne _ _ _ _ hct]
      exact hbase

/-- C10: when a selected numeric column has no numeric value at all, its
per-batch median is itself missing and imputation leaves the column
unchanged; in particular, when neither bound column exists in the batch,
the composite fico_score column of the engineered output is entirely
missing, so the engineered output can still contain missing values
despite the imputation step. -/
theorem claim_C10 (df w out : DF)
    (hw : engineerWorking df = some w)
    (hout : engineer_features df = some out)
    (hlo : (_normalize_columns df).hasCol "fico_range_low" = false)
    (hhi : (_normalize_columns df).hasCol "fico_range_high" = false) :
    (∀ c vs, c ∈ numeric_features w → w.get? c = some vs → colNums vs = [] →
        (imputeStage w).get? c = some vs)
    ∧ (∃ fs, out.get? "fico_score" = some fs ∧ ∀ x ∈ fs, x = Cell.na) := by
  constructor
  · intro c vs hc hv hnil
    rw [imputeStage_get?_numeric w c vs hc hv, fillNumericCol, hnil]
    rfl
  · -- decompose the derived stage
    have hd : ∃ w4, deriveStage (_normalize_columns df) = some w4 := by
      rw [engineerWorking] at hw
      cases hds : deriveStage (_normalize_columns df) with
      | none => rw [hds] at hw; cases hw
      | some w4 => exact ⟨w4, rfl⟩
    obtain ⟨wd, hds⟩ := hd
    have hweq : w = normalizeCategorical (coerceNumeric (labelStage wd)) := by
      rw [engineerWorking, hds] at hw
      exact (Option.some.inj hw).symm
    obtain ⟨w4, hset, hpres⟩ := deriveStage_decompose _ _ hds
    have hblo : w4.get? "fico_range_low" = none := by
      rw [hpres _ (by decide) (by decide) (by decide) (by decide)]
      exact get?_eq_none_of_not_hasCol _ _ hlo
    have hbhi : w4.get? "fico_range_high" = none := by
      rw [hpres _ (by decide) (by decide) (by decide) (by decide)]
      exact get?_eq_none_of_not_hasCol _ _ hhi
    have hbuild : _build_fico_score w4 = List.replicate w4.nrows Cell.na := by
      rw [_build_fico_score, hblo, hbhi]
    have hwd : wd.get? "fico_score" = some (List.replicate w4.nrows Cell.na) := by
      rw [hset, ← hbuild]
      exact DF.get?_setCol_self _ _ _
    -- through the label stage
    have hlab : ∃ fs1, (labelStage wd).get? "fico_score" = some fs1 ∧
        ∀ x ∈ fs1, x = Cell.na := by
      rcases labelStage_get?_ne wd "fico_score" (by decide) with h | ⟨mask, h⟩
      · refine ⟨List.replicate w4.nrows Cell.na, by rw [h, hwd], fun x hx => ?_⟩
        exact (List.mem_replicate.mp hx).2
      · refine ⟨maskFilter mask (List.replicate w4.nrows Cell.na), by rw [h, hwd]; rfl,
          fun x hx => ?_⟩
        exact (List.mem_replicate.mp (maskFilter_mem _ _ _ hx)).2
    obtain ⟨fs1, hfs1, hall1⟩ := hlab
    -- through numeric coercion
    have hco : (coerceNumeric (labelStage wd)).get? "fico_score" =
        some (fs1.map (fun c => optCell (toNumericCell c))) := by
      rw [coerceNumeric, mapCols_get?_mem _ _ _ _ (by decide) (by decide), hfs1]
      rfl
    have hall2 : ∀ x ∈ fs1.map (fun c => optCell (toNumericCell c)), x = Cell.na := by
      intro x hx
      obtain ⟨y, hy, hxy⟩ := List.mem_map.mp hx
      rw [hall1 y hy] at hxy
      rw [← hxy]
      rfl
    -- through categorical normalization
    have hnc : w.get? "fico_score" =
        some (fs1.map (fun c => optCell (toNumericCell c))) := by
      rw [hweq, normalizeCategorical, mapCols_get?_not_mem _ _ _ _ (by decide), hco]
    -- through imputation
    have hnum : "fico_score" ∈ numeric_features w := by
      rw [numeric_features]
      refine List.mem_filter.mpr ⟨by decide, ?_⟩
      exact (DF.hasCol_iff_get?_isSome _ _).mpr (by rw [hnc]; rfl)
    have himp : (imputeStage w).get? "fico_score" =
        some (fs1.map (fun c => optCell (toNumericCell c))) := by
      rw [imputeStage_get?_numeric w _ _ hnum hnc, fillNumericCol,
        colNums_nil_of_all_na _ hall2]
      rfl
    -- through assembly
    have hshape : out = assembleStage (imputeStage w) := by
      rw [engineer_features, hw] at hout
      simp only [Option.map_some'] at hout
      exact (Option.some.inj hout).symm
    have hnum2 : "fico_score" ∈ numeric_features (imputeStage w) := by
      rw [numeric_features]
      refine List.mem_filter.mpr ⟨by decide, ?_⟩
      exact (DF.hasCol_iff_get?_isSome _ _).mpr (by rw [himp]; rfl)
    refine ⟨fs1.map (fun c => optCell (toNumericCell c)), ?_, hall2⟩
    rw [hshape]
    exact assembleStage_get?_numeric _ _ _ hnum2 himp (by decide)

/-- Witness input for C10: a one-row batch with a label and no fico bound
columns at all. -/
def c10df : DF := ⟨[("loan_status", [Cell.str "Accepted"])]⟩

/-- Witness for C10: on the concrete batch the engineered fico_score
column is entirely missing. -/
theorem claim_C10_witness :
    ∃ fs, ((engineer_features c10df).getD ⟨[]⟩).get? "fico_score" = some fs ∧
      ∀ x ∈ fs, x = Cell.na := by
  have h := claim_C10 c10df ((engineerWorking c10df).getD ⟨[]⟩)
    ((engineer_features c10df).getD ⟨[]⟩) (by decide) (by decide) (by decide) (by decide)
  exact h.2

/-! Schema reconciliation and the chunked driver. -/

theorem reindexColumns_names (df : DF) (schema : List String) :
    (reindexColumns df schema).names = schema := by
  rw [reindexColumns, DF.names]
  induction schema with
  | nil => rfl
  | cons a rest ih => simpa [List.map_cons] using ih

theorem reindexColumns_get?_mem (df : DF) (schema : List String) (c : String)
    (hc : c ∈ schema) :
    (reindexColumns df schema).get? c =
      some (match df.get? c with
            | some vs => vs
            | none => List.replicate df.nrows (Cell.num ⟨0, 1⟩)) :=
  lookupCol_keyed_map schema _ c hc

theorem foldlM_driveStep_file (schema : List String) (chunks : List DF)
    (st res : RunState) (h : List.foldlM (driveStep schema) st chunks = some res) :
    ∃ segs : List DF,
      res.file = st.file ++ (segs.map (fun d => to_csv d false)).flatten ∧
      ∀ d ∈ segs, ∃ eng : DF, d = reindexColumns eng schema := by
  induction chunks generalizing st with
  | nil =>
      refine ⟨[], ?_, by simp⟩
      have hres : st = res := by
        simpa [List.foldlM] using h
      simp [hres]
  | cons chunk rest ih =>
      rw [List.foldlM_cons] at h
      rw [show (Bind.bind : Option RunState → _ → Option RunState) = Option.bind from rfl]
        at h
      obtain ⟨st', hstep, hrest⟩ := Option.bind_eq_some.mp h
      rw [driveStep] at hstep
      rw [show (Bind.bind : Option DF → _ → Option RunState) = Option.bind from rfl] at hstep
      obtain ⟨eng, heng, hbody⟩ := Option.bind_eq_some.mp hstep
      by_cases hemp : eng.isEmpty = true
      · rw [if_pos hemp] at hbody
        have hst : st = st' := Option.some.inj hbody
        obtain ⟨segs, hfile, hsegs⟩ := ih st' hrest
        exact ⟨segs, by rw [← hst] at hfile; exact hfile, hsegs⟩
      · rw [if_neg hemp] at hbody
        have hst : st' =
            ⟨st.file ++ to_csv (reindexColumns eng schema) false, st.total + eng.nrows⟩ :=
          (Option.some.inj hbody).symm
        obtain ⟨segs, hfile, hsegs⟩ := ih st' hrest
        refine ⟨reindexColumns eng schema :: segs, ?_, ?_⟩
        · rw [hfile, hst]
          simp [List.append_assoc]
        · intro d hd
          rcases List.mem_cons.mp hd with hd | hd
          · exact ⟨eng, hd⟩
          · exact hsegs d hd

theorem process_decompose (sample : DF) (chunks : List DF) (res : RunState)
    (h : process_full_dataset_chunked sample chunks = some res) :
    ∃ engS : DF, engineer_features sample = some engS ∧
    ∃ segs : List DF,
      res.file = to_csv engS true ++ (segs.map (fun d => to_csv d false)).flatten ∧
      ∀ d ∈ segs, ∃ eng : DF, d = reindexColumns eng engS.names := by
  rw [process_full_dataset_chunked] at h
  rw [show (Bind.bind : Option (DF × List String) → _ → Option RunState) = Option.bind
    from rfl] at h
  obtain ⟨pr, hpr, hrest⟩ := Option.bind_eq_some.mp h
  rw [engineer_sample_and_get_schema] at hpr
  obtain ⟨engS, hengS, hpre⟩ := Option.map_eq_some'.mp hpr
  refine ⟨engS, hengS, ?_⟩
  rw [← hpre] at hrest
  obtain ⟨segs, hfile, hsegs⟩ := foldlM_driveStep_file engS.names chunks _ res hrest
  exact ⟨segs, hfile, hsegs⟩

/-- C1: in every successful run, the output consists of the engineered
sample segment followed by one header-free segment per surviving chunk,
each of which is the reconciliation of that chunk's engineered batch
against the canonical schema; reconciliation produces exactly the schema
columns in schema order (columns outside the schema are discarded), a
schema column absent from the batch is an all-zero column, and a schema
column present in the batch keeps its values, so every appended segment
has exactly the same column set and order. -/
theorem claim_C1 (sample : DF) (chunks : List DF) (res : RunState)
    (h : process_full_dataset_chunked sample chunks = some res) :
    ∃ engS : DF, engineer_features sample = some engS ∧
    ∃ segs : List DF,
      res.file = to_csv engS true ++ (segs.map (fun d => to_csv d false)).flatten ∧
      (∀ d ∈ segs, ∃ eng : DF, d = reindexColumns eng engS.names) ∧
      (∀ d ∈ segs, d.names = engS.names) ∧
      (∀ (eng : DF) (c : String), c ∈ engS.names → eng.get? c = none →
          (reindexColumns eng engS.names).get? c =
            some (List.replicate eng.nrows (Cell.num ⟨0, 1⟩))) ∧
      (∀ (eng : DF) (c : String) (vs : Col), c ∈ engS.names → eng.get? c = some vs →
          (reindexColumns eng engS.names).get? c = some vs) ∧
      (∀ eng : DF, (reindexColumns eng engS.names).names = engS.names) := by
  obtain ⟨engS, hengS, segs, hfile, hsegs⟩ := process_decompose sample chunks res h
  refine ⟨engS, hengS, segs, hfile, hsegs, ?_, ?_, ?_, fun eng => reindexColumns_names _ _⟩
  · intro d hd
    obtain ⟨eng, rfl⟩ := hsegs d hd
    exact reindexColumns_names _ _
  · intro eng c hc hnone
    rw [reindexColumns_get?_mem eng _ c hc, hnone]
  · intro eng c vs hc hsome
    rw [reindexColumns_get?_mem eng _ c hc, hsome]

/-- Witness inputs for C1 and C2: a two-row sample and a one-row chunk
carrying a category unseen in the sample. -/
def runSample : DF :=
  ⟨[("loan_status", [Cell.str "Accepted", Cell.str "rejected"]),
    ("purpose", [Cell.str "car", Cell.str "car"])]⟩

/-- Chunk for the run witnesses: purpose value "boat" never appears in
the sample, and the chunk has no label column. -/
def runChunk : DF := ⟨[("purpose", [Cell.str "boat"])]⟩

/-- Witness for C1: the concrete two-segment run satisfies the
reconciliation properties; in particular the chunk's unseen category
column is discarded and the schema columns are zero-filled. -/
theorem claim_C1_witness :
    ∃ engS : DF, engineer_features runSample = some engS ∧
    ∃ segs : List DF,
      ((process_full_dataset_chunked runSample [runChunk]).getD ⟨[], 0⟩).file =
          to_csv engS true ++ (segs.map (fun d => to_csv d false)).flatten ∧
      (∀ d ∈ segs, ∃ eng : DF, d = reindexColumns eng engS.names) ∧
      (∀ d ∈ segs, d.names = engS.names) ∧
      (∀ (eng : DF) (c : String), c ∈ engS.names → eng.get? c = none →
          (reindexColumns eng engS.names).get? c =
            some (List.replicate eng.nrows (Cell.num ⟨0, 1⟩))) ∧
      (∀ (eng : DF) (c : String) (vs : Col), c ∈ engS.names → eng.get? c = some vs →
          (reindexColumns eng engS.names).get? c = some vs) ∧
      (∀ eng : DF, (reindexColumns eng engS.names).names = engS.names) :=
  claim_C1 runSample [runChunk]
    ((process_full_dataset_chunked runSample [runChunk]).getD ⟨[], 0⟩) (by decide)

theorem to_csv_true (df : DF) :
    to_csv df true = FileRow.header df.names :: df.rowsList.map FileRow.data := rfl

theorem to_csv_false (df : DF) : to_csv df false = df.rowsList.map FileRow.data := rfl

theorem dataRows_countP (rows : List (List Cell)) :
    (rows.map FileRow.data).countP isHeaderRow = 0 := by
  refine List.countP_eq_zero.mpr (fun a ha => ?_)
  obtain ⟨r, -, rfl⟩ := List.mem_map.mp ha
  simp [isHeaderRow]

theorem rowsList_row_length (df : DF) (row : List Cell) (hr : row ∈ df.rowsList) :
    row.length = df.names.length := by
  rw [DF.rowsList] at hr
  obtain ⟨i, -, rfl⟩ := List.mem_map.mp hr
  rw [List.length_map, DF.names, List.length_map]

/-- C2: in every successful run, the output file begins with exactly one
header row, equal to the canonical schema read off the engineered sample
and written with the sample segment; no other row of the file is a header
row, and every data row of the file has exactly the schema's column
count. -/
theorem claim_C2 (sample : DF) (chunks : List DF) (res : RunState)
    (h : process_full_dataset_chunked sample chunks = some res) :
    ∃ engS : DF, engineer_features sample = some engS ∧
      res.file.head? = some (FileRow.header engS.names) ∧
      res.file.countP isHeaderRow = 1 ∧
      ∀ r ∈ res.file, ∀ cs : List Cell, r = FileRow.data cs →
        cs.length = engS.names.length := by
  obtain ⟨engS, hengS, segs, hfile, hsegs⟩ := process_decompose sample chunks res h
  refine ⟨engS, hengS, ?_, ?_, ?_⟩
  · rw [hfile]
    rfl
  · rw [hfile, List.countP_append]
    have h1 : (to_csv engS true).countP isHeaderRow = 1 := by
      rw [to_csv_true, List.countP_cons, dataRows_countP]
      simp [isHeaderRow]
    have h2 : ((segs.map (fun d => to_csv d false)).flatten).countP isHeaderRow = 0 := by
      rw [List.countP_join]
      refine List.sum_eq_zero (fun x hx => ?_)
      obtain ⟨seg, hseg, rfl⟩ := List.mem_map.mp hx
      obtain ⟨d, -, rfl⟩ := List.mem_map.mp hseg
      rw [to_csv_false]
      exact dataRows_countP _
    omega
  · intro r hr cs hcs
    subst hcs
    rw [hfile] at hr
    rcases List.mem_append.mp hr with hr | hr
    · rw [to_csv_true] at hr
      rcases List.mem_cons.mp hr with hr | hr
      · cases hr
      · obtain ⟨row, hrow, heq⟩ := List.mem_map.mp hr
        injection heq with heq
        rw [heq] at hrow
        exact rowsList_row_length engS cs hrow
    · obtain ⟨seg, hseg, hr⟩ := List.mem_join.mp hr
      obtain ⟨d, hd, rfl⟩ := List.mem_map.mp hseg
      obtain ⟨eng, rfl⟩ := hsegs d hd
      rw [to_csv_false] at hr
      obtain ⟨row, hrow, heq⟩ := List.mem_map.mp hr
      injection heq with heq
      rw [heq] at hrow
      rw [rowsList_row_length _ cs hrow, reindexColumns_names]

/-- Witness for C2: the concrete two-segment run has the schema header
once at the top and all data rows of schema width. -/
theorem claim_C2_witness :
    ∃ engS : DF, engineer_features runSample = some engS ∧
      ((process_full_dataset_chunked runSample [runChunk]).getD ⟨[], 0⟩).file.head? =
          some (FileRow.header engS.names) ∧
      ((process_full_dataset_chunked runSample [runChunk]).getD ⟨[], 0⟩).file.countP
          isHeaderRow = 1 ∧
      ∀ r ∈ ((process_full_dataset_chunked runSample [runChunk]).getD ⟨[], 0⟩).file,
        ∀ cs : List Cell, r = FileRow.data cs → cs.length = engS.names.length :=
  claim_C2 runSample [runChunk]
    ((process_full_dataset_chunked runSample [runChunk]).getD ⟨[], 0⟩) (by decide)

end LoanPrep
